import Mathlib

/-!
Verification of the categorical scatter-plot renderer
(`superset/assets/visualizations/catscat.js`).

The JavaScript module is shallowly embedded: every function below is a
direct translation of the corresponding source function, with JS machine
floats idealised as rationals (`ℚ`), JS `undefined`/thrown `TypeError`
modelled with `Option`, and the DOM data-join of d3 modelled as the list
of marks it appends to a freshly cleared container.
-/

set_option maxRecDepth 4000

namespace CatScat

/-- A JavaScript value as it appears in a `Point` attribute of a dataset:
`null`, a number, or a string (category keys). -/
inductive JVal where
  | jnull : JVal
  | jnum (q : ℚ) : JVal
  | jstr (s : String) : JVal
deriving DecidableEq, Repr

/-- JS unary-plus (`ToNumber`) coercion, as applied by the sort comparator
`+pickFirst(...)`.  `none` models NaN.  `+null` is `0`; a numeric-literal
string coerces to its value, the empty string to `0`, and any other string
to NaN (non-integer numeric strings are not needed by any dataset here and
are conservatively mapped to NaN). -/
def toNumber : JVal → Option ℚ
  | .jnull => some 0
  | .jnum q => some q
  | .jstr s => if s = "" then some 0 else (s.toInt?).map (fun n => (n : ℚ))

/-- JS `String(...)` coercion as performed internally by `d3.set` (and
`d3.map`) when it turns a value into a hash key.  Integral numbers print
without a fractional part, as in JS. -/
def toKeyString : JVal → String
  | .jnull => "null"
  | .jnum q => if q.den = 1 then toString q.num else toString q
  | .jstr s => s

/-- A `Point` of the dataset: `{y: number, color, shape, entity}`
(see the comment at `catscat.js` line 164). -/
structure Point where
  y : ℚ
  color : JVal
  shape : JVal
  entity : String
deriving DecidableEq, Repr

/-- A `Series` of the dataset: `{key: 'group 1', values: [...]}`. -/
structure Series where
  key : String
  values : List Point
deriving DecidableEq, Repr

/-- `pickFirst(array, attr, defaultValue = null)`:
`array.length > 0 ? array[0][attr] : defaultValue`. -/
def pickFirst (array : List Point) (attr : Point → JVal)
    (defaultValue : JVal := .jnull) : JVal :=
  match array with
  | [] => defaultValue
  | x :: _ => attr x

/-- The numeric sort key of a series:
`+pickFirst(s.values, sortBy)` (`none` = NaN). -/
def seriesSortKey (sortBy : Point → JVal) (s : Series) : Option ℚ :=
  toNumber (pickFirst s.values sortBy)

/-- The comparator `(a, b) => +pickFirst(a.values, sortBy) - +pickFirst(b.values, sortBy)`
passed to `Array.prototype.sort`, combined with the ECMAScript `SortCompare`
rule that a NaN comparator result counts as `+0` (a tie). -/
def sortCompare (sortBy : Point → JVal) (a b : Series) : ℚ :=
  match seriesSortKey sortBy a, seriesSortKey sortBy b with
  | some x, some y => x - y
  | _, _ => 0

/-- `a` may stay left of `b` under the comparator: comparator result `≤ 0`. -/
def sortLE (sortBy : Point → JVal) (a b : Series) : Bool :=
  decide (sortCompare sortBy a b ≤ 0)

/-- Stable insertion step: `x` is inserted after every element `y` of the
already-sorted prefix with `le y x`, so equal elements keep their original
relative order. -/
def jsInsert {α : Type} (le : α → α → Bool) (x : α) : List α → List α
  | [] => [x]
  | y :: ys => if le y x then y :: jsInsert le x ys else x :: y :: ys

/-- A stable sort, modelling ECMAScript `Array.prototype.sort` (required to
be stable since ES2019; on a consistent comparator every stable sort
produces the same list). -/
def jsStableSort {α : Type} (le : α → α → Bool) (l : List α) : List α :=
  l.foldl (fun acc x => jsInsert le x acc) []

/-- `sortData(data, sortBy)` (`catscat.js` lines 33-36): sorts the series
in place by the comparator above and returns the array. -/
def sortData (data : List Series) (sortBy : Point → JVal) : List Series :=
  jsStableSort (sortLE sortBy) data

/-- `computeTickInterval(data)` (`catscat.js` lines 41-49).
`d3.max` of an empty array is `undefined`, and `undefined.toString()`
throws a `TypeError`: `none` models that thrown exception.  The loop
multiplies `interval = 1` by ten `nDigits - 1` times, i.e. produces
`10 ^ (nDigits - 1)`, which is then halved. -/
def computeTickInterval (data : List ℕ) : Option ℚ :=
  match data.max? with
  | none => none
  | some maxValue =>
    let nDigits := (Nat.repr maxValue).length
    some ((10 : ℚ) ^ (nDigits - 1) / 2)

/-- JS `%` (remainder) for a non-negative dividend and positive divisor,
where it agrees with the floor-based remainder. -/
def jsMod (a b : ℚ) : ℚ := a - b * (⌊a / b⌋ : ℤ)

/-- d3 v3 `linear` scale with a two-element domain and range.  When the
domain is degenerate, `d3_uninterpolateNumber` returns the constant `0`,
so the scale is constantly `r0`. -/
def linearScale (d0 d1 r0 r1 x : ℚ) : ℚ :=
  if d1 - d0 = 0 then r0 else r0 + (x - d0) / (d1 - d0) * (r1 - r0)

/-- The vertical scale as built by `computedProps`: its domain is
`[yMin, yMax]` when those exist; with an `undefined` domain every
application yields NaN (`none`). -/
def jsLinearScale (dom : Option (ℚ × ℚ)) (r0 r1 x : ℚ) : Option ℚ :=
  match dom with
  | none => none
  | some (a, b) => some (linearScale a b r0 r1 x)

/-- d3 v3 `ordinal.rangePoints([x0, x1])` (padding 0): the position of
index `i` among `n` domain values.  `steps` starts at the midpoint when
the domain has fewer than two values, at `x0` otherwise, with step
`(x1 - x0) / max 1 (n - 1)`. -/
def rangePoints (x0 x1 : ℚ) (n i : ℕ) : ℚ :=
  (if n < 2 then (x0 + x1) / 2 else x0) + (x1 - x0) / (max 1 (n - 1) : ℕ) * i

/-- `d3.set(list).values()`: each value is coerced to a string key and
inserted once; d3 v3 prefixes the keys, so JS object-property iteration
returns them in insertion (first-seen) order. -/
def d3SetValues (l : List String) : List String :=
  l.foldl (fun acc s => if s ∈ acc then acc else acc ++ [s]) []

/-- Specification-side restatement of first-seen deduplication
("deduplicated, order = first-seen during a full scan"): keep each first
occurrence, erase the later ones. -/
def firstSeenDedup : List String → List String
  | [] => []
  | x :: l => x :: firstSeenDedup (l.filter (fun y => y ≠ x))
termination_by l => l.length
decreasing_by
  simp only [List.length_cons]
  exact Nat.lt_succ_of_le (List.length_filter_le _ _)

/-- `d3.svg.symbolTypes` (d3 v3). -/
def symbolTypes : List String :=
  ["circle", "cross", "diamond", "square", "triangle-down", "triangle-up"]

/-- d3 v3 `ordinal` scale applied to a value of its domain: the i-th
domain value receives the `i mod |range|`-th range value (d3's implicit
domain extension for unknown values is never exercised here and is
modelled as `none`). -/
def ordinalScale (domain range : List String) (x : String) : Option String :=
  match domain.findIdx? (fun y => y == x) with
  | some i => range[i % range.length]?
  | none => none

/-- All `y` values of the dataset in scan order; `d3.min(data, d => d3.min(d.values, v => v.y))`
ignores the `undefined` produced by empty inner arrays, so the nested
minimum is the minimum of this flattened list. -/
def seriesYs (data : List Series) : List ℚ :=
  data.flatMap (fun d => d.values.map (fun v => v.y))

/-- The fixed padding object of `computedProps` (`catscat.js` lines 61-66). -/
structure Padding where
  top : ℚ
  left : ℚ
  right : ℚ
  bottom : ℚ
deriving DecidableEq, Repr

/-- The derived values returned by `computedProps` (`catscat.js` lines 59-132).
The two scales are represented by their data (`yDomain`, `plotHeight`,
`plotWidth`, `sortedData.length`); applying them is `yScaleAt` / `xPos`
below. -/
structure ComputedProps where
  padding : Padding
  sortedData : List Series
  plotWidth : ℚ
  plotHeight : ℚ
  yDomain : Option (ℚ × ℚ)
  interval : ℚ
  xTicks : List ℕ
  colorValues : List String
  shapeValues : List String
  xlabelHeight : ℚ
  legendWidth : ℚ
deriving DecidableEq, Repr

/-- `computedProps(props)` (`catscat.js` lines 59-132).  `none` models the
`TypeError` thrown inside `computeTickInterval` when the series list is
empty.  Note that `sortData` sorts `data` in place, so the later scans
`data.map(d => d.values.map(v => v.color))` (lines 92 and 98) walk the
already-sorted array: the aliasing is made explicit by scanning
`sortedData`.  The fractional constants `0.07` and `0.03` are idealised
as exact rationals. -/
def computedProps (data : List Series) (width height : ℚ) : Option ComputedProps :=
  let padding : Padding := { top := 20, left := 60, right := 20, bottom := 60 }
  let plotWidth := width - (padding.right + padding.left)
  let legendWidth := plotWidth
  let legendHeight := height * (7 / 100)
  let xlabelHeight := height * (3 / 100)
  let plotHeight := height - (padding.top + padding.bottom + legendHeight + xlabelHeight)
  let sortedData := sortData data (fun p => p.color)
  let yMin := (seriesYs sortedData).min?
  let yMax := (seriesYs sortedData).max?
  let yDomain : Option (ℚ × ℚ) :=
    match yMin, yMax with
    | some a, some b => some (a, b)
    | _, _ => none
  let xDomain := List.range sortedData.length
  let colorValuesAll := sortedData.map (fun d => d.values.map (fun v => v.color))
  let colorValues := d3SetValues (colorValuesAll.flatten.map toKeyString)
  let shapeValuesAll := sortedData.map (fun d => d.values.map (fun v => v.shape))
  let shapeValues := d3SetValues (shapeValuesAll.flatten.map toKeyString)
  match computeTickInterval xDomain with
  | none => none
  | some interval =>
    let xTicks := xDomain.filter (fun (d : ℕ) => decide (jsMod (d : ℚ) interval = 0))
    some { padding := padding, sortedData := sortedData, plotWidth := plotWidth,
           plotHeight := plotHeight, yDomain := yDomain, interval := interval,
           xTicks := xTicks, colorValues := colorValues, shapeValues := shapeValues,
           xlabelHeight := xlabelHeight, legendWidth := legendWidth }

/-- Applying the vertical scale `d3.scale.linear().domain([yMin, yMax]).range([plotHeight, 0])`. -/
def ComputedProps.yScaleAt (cp : ComputedProps) (x : ℚ) : Option ℚ :=
  jsLinearScale cp.yDomain cp.plotHeight 0 x

/-- Applying the horizontal scale
`d3.scale.ordinal().domain(d3.range(sortedData.length)).rangePoints([0, plotWidth])`
to index `i`. -/
def ComputedProps.xPos (cp : ComputedProps) (i : ℕ) : ℚ :=
  rangePoints 0 cp.plotWidth cp.sortedData.length i

/-- One reference line appended by the `yLines` block
(`catscat.js` lines 288-300). -/
structure RefLine where
  stroke : String
  strokeWidth : ℚ
  x1 : ℚ
  x2 : ℚ
  y1 : Option ℚ
  y2 : Option ℚ
deriving DecidableEq, Repr

/-- One symbol `path` appended for a `Point` (`catscat.js` lines 271-284):
its symbol type from the shape scale and its vertical translation
`yScale(d.y)` (the fill goes through the external `getColorFromScheme`
collaborator and is not modelled). -/
structure PointMark where
  shapePath : Option String
  translateY : Option ℚ
deriving DecidableEq, Repr

/-- One `.band` group appended for a `Series` (`catscat.js` lines 261-266):
its horizontal translation `xScale(i)`. -/
structure BandMark where
  translateX : ℚ
deriving DecidableEq, Repr

/-- Everything a `scatCatViz` call appends to the freshly cleared
container, plus the final value of the caller's `json.data.data` array
(`sortData` reorders it in place). -/
structure RenderOutput where
  bands : List BandMark
  points : List PointMark
  lines : List RefLine
  legendColorKeys : List String
  legendShapeKeys : List String
  dataAfter : List Series
deriving DecidableEq, Repr

/-- The `if (yLines) { ... }` block (`catscat.js` lines 288-300): `none`
models an absent (`undefined`/falsy) `yLines`; an empty array is truthy
but binds no data, so it appends no lines. -/
def renderYLines (yLines : Option (List ℚ)) (plotWidth : ℚ)
    (yScale : ℚ → Option ℚ) : List RefLine :=
  match yLines with
  | none => []
  | some ls => ls.map (fun d =>
      { stroke := "red", strokeWidth := 3 / 2, x1 := 0, x2 := plotWidth,
        y1 := yScale d, y2 := yScale d })

/-- `scatCatViz(slice, json)` (`catscat.js` lines 143-304).  The enter
selections append one `.band` group per series of `sortedData`, one
`.point` path per element of each series' `values`, one line per `yLines`
entry, and `renderLegend` appends one legend key per entry of
`colorValues` and of `shapeValues`.  `none` models the `TypeError`
escaping from `computedProps`. -/
def scatCatViz (data : List Series) (yLines : Option (List ℚ))
    (width height : ℚ) : Option RenderOutput :=
  match computedProps data width height with
  | none => none
  | some cp =>
    let bands := cp.sortedData.enum.map (fun p => BandMark.mk (cp.xPos p.1))
    let points := cp.sortedData.flatMap (fun d => d.values.map (fun v =>
      PointMark.mk (ordinalScale cp.shapeValues symbolTypes (toKeyString v.shape))
        (cp.yScaleAt v.y)))
    let lines := renderYLines yLines cp.plotWidth cp.yScaleAt
    some { bands := bands, points := points, lines := lines,
           legendColorKeys := cp.colorValues, legendShapeKeys := cp.shapeValues,
           dataAfter := cp.sortedData }

/-- `paddingY` of `fixUpLegend` (`catscat.js` line 378). -/
def legendPaddingY : ℚ := 20

/-- `paddingX` of `fixUpLegend` (`catscat.js` line 379). -/
def legendPaddingX : ℚ := 16

/-- The `bboxes.forEach` loop of `fixUpLegend` (`catscat.js` lines
389-397), recursing over the measured bounding-box widths with the
mutable `currentX`/`currentY` state made explicit; returns the pushed
`adjustments` positions. -/
def legendAdjustAux (legendWidth : ℚ) : List ℚ → ℚ → ℚ → List (ℚ × ℚ)
  | [], _, _ => []
  | w :: ws, currentX, currentY =>
    if currentX + w ≥ legendWidth then
      (0, currentY + legendPaddingY) ::
        legendAdjustAux legendWidth ws (w + legendPaddingX) (currentY + legendPaddingY)
    else
      (currentX, currentY) ::
        legendAdjustAux legendWidth ws (currentX + w + legendPaddingX) currentY

/-- The positions `fixUpLegend` assigns to the legend keys, given the
measured widths of their bounding boxes (`getBBox` is DOM state, so the
widths are the function's input here); the loop starts from
`currentX = 0`, `currentY = paddingY`. -/
def fixUpLegendAdjustments (legendWidth : ℚ) (bboxWidths : List ℚ) : List (ℚ × ℚ) :=
  legendAdjustAux legendWidth bboxWidths 0 legendPaddingY

/-- The same greedy loop, recorded as the rows it builds (the keys that
receive a common `currentY`) instead of as coordinates; `cur` is the row
currently being filled.  `legendRowsAux_eq_adjust` below proves the two
recordings agree. -/
def legendRowsAux (legendWidth : ℚ) : List ℚ → ℚ → List ℚ → List (List ℚ)
  | [], _, cur => [cur]
  | w :: ws, currentX, cur =>
    if currentX + w ≥ legendWidth then
      cur :: legendRowsAux legendWidth ws (w + legendPaddingX) [w]
    else
      legendRowsAux legendWidth ws (currentX + w + legendPaddingX) (cur ++ [w])

/-- The rows into which `fixUpLegend` wraps the legend keys. -/
def legendRows (legendWidth : ℚ) (bboxWidths : List ℚ) : List (List ℚ) :=
  legendRowsAux legendWidth bboxWidths 0 []

/-- The total occupied width of one legend row: the key widths plus the
fixed inter-key gap between consecutive keys. -/
def rowWidth (row : List ℚ) : ℚ :=
  match row with
  | [] => 0
  | _ => row.sum + legendPaddingX * ((row.length : ℚ) - 1)

/-- Horizontal coordinates of one row of keys laid out left to right from
`startX` with the fixed inter-key gap. -/
def rowXs (startX : ℚ) : List ℚ → List ℚ
  | [] => []
  | w :: ws => startX :: rowXs (startX + w + legendPaddingX) ws

/-- Coordinates generated by a list of rows: each row is laid out from
`x = startX` (0 for every later row), one `paddingY` below the previous. -/
def rowsCoords : List (List ℚ) → ℚ → ℚ → List (ℚ × ℚ)
  | [], _, _ => []
  | r :: rs, startX, startY =>
    (rowXs startX r).map (fun x => (x, startY)) ++
      rowsCoords rs 0 (startY + legendPaddingY)

/-- Split of the greedy loop's output into the remainder of the row open
at `currentX` and the fully fresh rows after it. -/
def rowsSplit (legendWidth : ℚ) : List ℚ → ℚ → List ℚ × List (List ℚ)
  | [], _ => ([], [])
  | w :: ws, currentX =>
    if currentX + w ≥ legendWidth then
      let p := rowsSplit legendWidth ws (w + legendPaddingX)
      ([], (w :: p.1) :: p.2)
    else
      let p := rowsSplit legendWidth ws (currentX + w + legendPaddingX)
      (w :: p.1, p.2)

/-- The numeric key on which `sortData(data, 'color')` actually orders:
`+pickFirst(s.values, 'color')`, with the (never compared) NaN case
defaulted to 0. -/
def numKeyD (s : Series) : ℚ := (seriesSortKey (fun p => p.color) s).getD 0

/-- Concrete sample point used by the witnesses. -/
def demoPoint (yv : ℚ) (c : JVal) : Point :=
  { y := yv, color := c, shape := .jstr "x", entity := "e" }

/-- Concrete sample dataset used by the witnesses: two one-point series
with numeric colors 5 and 2 plus one empty series, so sorting reverses
the list. -/
def demoData : List Series :=
  [ { key := "a", values := [demoPoint 5 (.jnum 5)] },
    { key := "b", values := [demoPoint 1 (.jnum 2)] },
    { key := "c", values := [] } ]

/-!  ## Supporting lemmas: the stable sort  -/

theorem jsInsert_perm {α : Type} (le : α → α → Bool) (x : α) (l : List α) :
    (jsInsert le x l).Perm (x :: l) := by
  induction l with
  | nil => simp [jsInsert]
  | cons y ys ih =>
    simp only [jsInsert]
    by_cases h : le y x
    · simp only [h, if_true]
      exact (ih.cons y).trans (List.Perm.swap x y ys)
    · simp [h]

theorem jsStableSort_go_perm {α : Type} (le : α → α → Bool) :
    ∀ (l acc : List α), (l.foldl (fun acc x => jsInsert le x acc) acc).Perm (acc ++ l)
  | [], acc => by simp
  | x :: l, acc => by
    simp only [List.foldl_cons]
    refine (jsStableSort_go_perm le l (jsInsert le x acc)).trans ?_
    refine ((jsInsert_perm le x acc).append_right l).trans ?_
    exact List.perm_middle.symm

theorem jsStableSort_perm {α : Type} (le : α → α → Bool) (l : List α) :
    (jsStableSort le l).Perm l := by
  simpa [jsStableSort] using jsStableSort_go_perm le l []

theorem sortData_perm (data : List Series) (sortBy : Point → JVal) :
    (sortData data sortBy).Perm data :=
  jsStableSort_perm _ data

theorem jsInsert_pairwise {α : Type} {le : α → α → Bool} {k : α → ℚ} {x : α} {l : List α}
    (hle : ∀ a ∈ x :: l, ∀ b ∈ x :: l, (le a b = true ↔ k a ≤ k b))
    (hl : l.Pairwise (fun a b => k a ≤ k b)) :
    (jsInsert le x l).Pairwise (fun a b => k a ≤ k b) := by
  induction l with
  | nil => simp [jsInsert]
  | cons y ys ih =>
    rw [List.pairwise_cons] at hl
    obtain ⟨hy, hys⟩ := hl
    have hym : y ∈ x :: y :: ys := by simp
    have hxm : x ∈ x :: y :: ys := by simp
    have hsub : ∀ a, a ∈ x :: ys → a ∈ x :: y :: ys := by
      intro a ha
      rcases List.mem_cons.mp ha with rfl | ha
      · simp
      · simp [ha]
    simp only [jsInsert]
    by_cases h : le y x = true
    · simp only [h, if_true]
      rw [List.pairwise_cons]
      refine ⟨?_, ih (fun a ha b hb => hle a (hsub a ha) b (hsub b hb)) hys⟩
      intro z hz
      have hz2 := (jsInsert_perm le x ys).mem_iff.mp hz
      rcases List.mem_cons.mp hz2 with hzx | hz3
      · rw [hzx]
        exact (hle y hym x hxm).mp h
      · exact hy z hz3
    · rw [if_neg h]
      have hxy : k x ≤ k y :=
        le_of_not_le (fun hc => h ((hle y hym x hxm).mpr hc))
      rw [List.pairwise_cons]
      refine ⟨?_, List.pairwise_cons.mpr ⟨hy, hys⟩⟩
      intro z hz
      rcases List.mem_cons.mp hz with hzy | hz2
      · rw [hzy]
        exact hxy
      · exact hxy.trans (hy z hz2)

theorem jsStableSort_go_pairwise {α : Type} {le : α → α → Bool} {k : α → ℚ} :
    ∀ (l acc : List α),
      (∀ a ∈ acc ++ l, ∀ b ∈ acc ++ l, (le a b = true ↔ k a ≤ k b)) →
      acc.Pairwise (fun a b => k a ≤ k b) →
      (l.foldl (fun acc x => jsInsert le x acc) acc).Pairwise (fun a b => k a ≤ k b)
  | [], acc, _, hacc => by simpa using hacc
  | x :: l, acc, hle, hacc => by
    simp only [List.foldl_cons]
    have hmem : ∀ a, a ∈ jsInsert le x acc → a ∈ acc ++ x :: l := by
      intro a ha
      have ha2 := (jsInsert_perm le x acc).mem_iff.mp ha
      rcases List.mem_cons.mp ha2 with rfl | ha3
      · exact List.mem_append.mpr (Or.inr (by simp))
      · exact List.mem_append.mpr (Or.inl ha3)
    have hmem2 : ∀ a, a ∈ x :: acc → a ∈ acc ++ x :: l := by
      intro a ha
      rcases List.mem_cons.mp ha with rfl | ha2
      · exact List.mem_append.mpr (Or.inr (by simp))
      · exact List.mem_append.mpr (Or.inl ha2)
    apply jsStableSort_go_pairwise l (jsInsert le x acc)
    · intro a ha b hb
      apply hle
      · rcases List.mem_append.mp ha with h1 | h1
        · exact hmem a h1
        · exact List.mem_append.mpr (Or.inr (List.mem_cons_of_mem x h1))
      · rcases List.mem_append.mp hb with h1 | h1
        · exact hmem b h1
        · exact List.mem_append.mpr (Or.inr (List.mem_cons_of_mem x h1))
    · exact jsInsert_pairwise (fun a ha b hb => hle a (hmem2 a ha) b (hmem2 b hb)) hacc

theorem jsStableSort_pairwise {α : Type} {le : α → α → Bool} {k : α → ℚ} {l : List α}
    (hle : ∀ a ∈ l, ∀ b ∈ l, (le a b = true ↔ k a ≤ k b)) :
    (jsStableSort le l).Pairwise (fun a b => k a ≤ k b) := by
  apply jsStableSort_go_pairwise l []
  · simpa using hle
  · simp

theorem jsInsert_filter {α : Type} {le : α → α → Bool} {k : α → ℚ} (q : ℚ) {x : α} {l : List α}
    (hle : ∀ a ∈ x :: l, ∀ b ∈ x :: l, (le a b = true ↔ k a ≤ k b))
    (hl : l.Pairwise (fun a b => k a ≤ k b)) :
    (jsInsert le x l).filter (fun s => decide (k s = q)) =
      if k x = q then l.filter (fun s => decide (k s = q)) ++ [x]
      else l.filter (fun s => decide (k s = q)) := by
  induction l with
  | nil =>
    by_cases h : k x = q <;> simp [jsInsert, List.filter, h]
  | cons y ys ih =>
    rw [List.pairwise_cons] at hl
    obtain ⟨hy, hys⟩ := hl
    have hym : y ∈ x :: y :: ys := by simp
    have hxm : x ∈ x :: y :: ys := by simp
    have hsub : ∀ a, a ∈ x :: ys → a ∈ x :: y :: ys := by
      intro a ha
      rcases List.mem_cons.mp ha with rfl | ha
      · simp
      · simp [ha]
    simp only [jsInsert]
    by_cases h : le y x = true
    · simp only [h, if_true]
      rw [List.filter_cons, List.filter_cons]
      rw [ih (fun a ha b hb => hle a (hsub a ha) b (hsub b hb)) hys]
      by_cases hxq : k x = q <;> by_cases hyq : k y = q <;>
        simp [hxq, hyq]
    · rw [if_neg h]
      have hxy : k x ≤ k y :=
        le_of_not_le (fun hc => h ((hle y hym x hxm).mpr hc))
      by_cases hxq : k x = q
      · have hnil : (y :: ys).filter (fun s => decide (k s = q)) = [] := by
          rw [List.filter_eq_nil_iff]
          intro a ha
          simp only [decide_eq_true_eq]
          intro hq
          have hya : k y ≤ k a := by
            rcases List.mem_cons.mp ha with hay | ha2
            · rw [hay]
            · exact hy a ha2
          have h2 : le y x = true := by
            apply (hle y hym x hxm).mpr
            calc k y ≤ k a := hya
              _ = q := hq
              _ = k x := hxq.symm
          exact h h2
        rw [List.filter_cons]
        simp [hxq, hnil]
      · rw [List.filter_cons]
        simp [hxq]

theorem jsStableSort_go_filter {α : Type} {le : α → α → Bool} {k : α → ℚ} (q : ℚ) :
    ∀ (l acc : List α),
      (∀ a ∈ acc ++ l, ∀ b ∈ acc ++ l, (le a b = true ↔ k a ≤ k b)) →
      acc.Pairwise (fun a b => k a ≤ k b) →
      (l.foldl (fun acc x => jsInsert le x acc) acc).filter (fun s => decide (k s = q)) =
        acc.filter (fun s => decide (k s = q)) ++ l.filter (fun s => decide (k s = q))
  | [], acc, _, _ => by simp
  | x :: l, acc, hle, hacc => by
    simp only [List.foldl_cons]
    have hmem : ∀ a, a ∈ jsInsert le x acc → a ∈ acc ++ x :: l := by
      intro a ha
      have ha2 := (jsInsert_perm le x acc).mem_iff.mp ha
      rcases List.mem_cons.mp ha2 with rfl | ha3
      · exact List.mem_append.mpr (Or.inr (by simp))
      · exact List.mem_append.mpr (Or.inl ha3)
    have hmem2 : ∀ a, a ∈ x :: acc → a ∈ acc ++ x :: l := by
      intro a ha
      rcases List.mem_cons.mp ha with rfl | ha2
      · exact List.mem_append.mpr (Or.inr (by simp))
      · exact List.mem_append.mpr (Or.inl ha2)
    have hle2 : ∀ a ∈ x :: acc, ∀ b ∈ x :: acc, (le a b = true ↔ k a ≤ k b) :=
      fun a ha b hb => hle a (hmem2 a ha) b (hmem2 b hb)
    rw [jsStableSort_go_filter q l (jsInsert le x acc) ?hle ?hpw]
    case hle =>
      intro a ha b hb
      apply hle
      · rcases List.mem_append.mp ha with h1 | h1
        · exact hmem a h1
        · exact List.mem_append.mpr (Or.inr (List.mem_cons_of_mem x h1))
      · rcases List.mem_append.mp hb with h1 | h1
        · exact hmem b h1
        · exact List.mem_append.mpr (Or.inr (List.mem_cons_of_mem x h1))
    case hpw => exact jsInsert_pairwise hle2 hacc
    rw [jsInsert_filter q hle2 hacc]
    rw [List.filter_cons]
    by_cases hxq : k x = q <;> simp [hxq]

theorem jsStableSort_filter {α : Type} {le : α → α → Bool} {k : α → ℚ} (q : ℚ) {l : List α}
    (hle : ∀ a ∈ l, ∀ b ∈ l, (le a b = true ↔ k a ≤ k b)) :
    (jsStableSort le l).filter (fun s => decide (k s = q)) =
      l.filter (fun s => decide (k s = q)) := by
  have h := @jsStableSort_go_filter α le k q l [] (by simpa using hle) (by simp)
  simpa [jsStableSort] using h

/-!  ## Supporting lemmas: scales, modulo, digit counts  -/

theorem rangePoints_strict_mono {x1 : ℚ} {n i j : ℕ} (hx : 0 < x1)
    (hij : i < j) (hj : j < n) :
    rangePoints 0 x1 n i < rangePoints 0 x1 n j := by
  have hn : ¬ n < 2 := by omega
  have hn1 : (0 : ℚ) < ((max 1 (n - 1) : ℕ) : ℚ) := by
    have : 0 < max 1 (n - 1) := by omega
    exact_mod_cast this
  have hstep : (0 : ℚ) < (x1 - 0) / ((max 1 (n - 1) : ℕ) : ℚ) := by
    apply div_pos
    · simpa using hx
    · exact hn1
  have hcast : (i : ℚ) < (j : ℚ) := by exact_mod_cast hij
  simp only [rangePoints, if_neg hn]
  have := mul_lt_mul_of_pos_left hcast hstep
  linarith

theorem jsMod_eq_zero_iff {a b : ℚ} (hb : b ≠ 0) :
    jsMod a b = 0 ↔ ∃ k : ℤ, a = k * b := by
  constructor
  · intro h
    refine ⟨⌊a / b⌋, ?_⟩
    unfold jsMod at h
    linarith
  · rintro ⟨k, rfl⟩
    unfold jsMod
    rw [mul_div_assoc, div_self hb, mul_one, Int.floor_intCast]
    ring

theorem toDigitsCore_length_eq :
    ∀ (fuel n : ℕ) (ds : List Char), Nat.log 10 n < fuel →
      (Nat.toDigitsCore 10 fuel n ds).length = Nat.log 10 n + 1 + ds.length := by
  intro fuel
  induction fuel with
  | zero => intro n ds h; omega
  | succ fuel ih =>
    intro n ds h
    rw [Nat.toDigitsCore]
    by_cases hdiv : n / 10 = 0
    · have hn : n < 10 := by omega
      have hlog : Nat.log 10 n = 0 := Nat.log_eq_zero_iff.mpr (Or.inl hn)
      simp only [hdiv, if_true, List.length_cons, hlog]
      omega
    · have hn : 10 ≤ n := by
        by_contra hc
        exact hdiv (Nat.div_eq_of_lt (by omega))
      have hlogpos : 0 < Nat.log 10 n := Nat.log_pos (by omega) hn
      have hlogdiv : Nat.log 10 (n / 10) = Nat.log 10 n - 1 := Nat.log_div_base 10 n
      simp only [hdiv, if_false]
      rw [ih (n / 10) _ (by omega)]
      simp only [List.length_cons]
      omega

theorem repr_length_eq_log (n : ℕ) :
    (Nat.repr n).length = Nat.log 10 n + 1 := by
  have h := toDigitsCore_length_eq (n + 1) n [] (by
    have := Nat.log_le_self 10 n
    omega)
  simp only [List.length_nil, Nat.add_zero] at h
  simpa [Nat.repr, Nat.toDigits, List.length_asString] using h

theorem repr_length_eq_digits_len (n : ℕ) (hn : n ≠ 0) :
    (Nat.repr n).length = (Nat.digits 10 n).length := by
  rw [repr_length_eq_log, Nat.digits_len 10 n (by omega) hn]

/-!  ## Supporting lemmas: deduplication  -/

theorem d3SetValues_go_eq :
    ∀ (l acc : List String),
      l.foldl (fun acc s => if s ∈ acc then acc else acc ++ [s]) acc
        = acc ++ firstSeenDedup (l.filter (fun y => decide (y ∉ acc))) := by
  intro l
  induction l with
  | nil => intro acc; simp [firstSeenDedup]
  | cons x l ih =>
    intro acc
    simp only [List.foldl_cons, List.filter_cons]
    by_cases hx : x ∈ acc
    · rw [if_pos hx, ih acc]
      simp [hx]
    · rw [if_neg hx]
      rw [ih (acc ++ [x])]
      rw [if_pos (by simp [hx] : decide (x ∉ acc) = true)]
      simp only [firstSeenDedup]
      rw [List.append_assoc]
      have hfe : List.filter (fun y => decide (y ∉ acc ++ [x])) l
          = List.filter (fun y => decide (y ≠ x)) (List.filter (fun y => decide (y ∉ acc)) l) := by
        rw [List.filter_filter]
        apply List.filter_congr
        intro a _
        by_cases h1 : a ∈ acc <;> by_cases h2 : a = x <;>
          simp [h1, h2]
      rw [hfe]
      rfl

theorem d3SetValues_eq_firstSeenDedup (l : List String) :
    d3SetValues l = firstSeenDedup l := by
  have h := d3SetValues_go_eq l []
  simp only [List.nil_append] at h
  rw [d3SetValues, h]
  congr 1
  apply List.filter_eq_self.mpr
  intro a _
  simp

theorem mem_firstSeenDedup (l : List String) (x : String) :
    x ∈ firstSeenDedup l ↔ x ∈ l := by
  induction l using firstSeenDedup.induct with
  | case1 => simp [firstSeenDedup]
  | case2 a l ih =>
    simp only [firstSeenDedup]
    simp only [List.mem_cons]
    rw [ih]
    constructor
    · rintro (h | h)
      · exact Or.inl h
      · right
        exact (List.mem_filter.mp h).1
    · rintro (h | h)
      · exact Or.inl h
      · by_cases hax : x = a
        · exact Or.inl hax
        · right
          exact List.mem_filter.mpr ⟨h, by simp [hax]⟩

theorem nodup_firstSeenDedup (l : List String) :
    (firstSeenDedup l).Nodup := by
  induction l using firstSeenDedup.induct with
  | case1 => simp [firstSeenDedup]
  | case2 a l ih =>
    simp only [firstSeenDedup]
    rw [List.nodup_cons]
    refine ⟨?_, ih⟩
    intro hmem
    have := (mem_firstSeenDedup _ a).mp hmem
    have := (List.mem_filter.mp this).2
    simp at this

theorem toFinset_firstSeenDedup (l : List String) :
    (firstSeenDedup l).toFinset = l.toFinset := by
  ext a
  simp [List.mem_toFinset, mem_firstSeenDedup]

theorem length_firstSeenDedup (l : List String) :
    (firstSeenDedup l).length = l.toFinset.card := by
  rw [← toFinset_firstSeenDedup]
  exact (List.toFinset_card_of_nodup (nodup_firstSeenDedup l)).symm

/-!  ## Supporting lemmas: legend layout  -/

theorem legendRowsAux_eq_split (W : ℚ) :
    ∀ (ws : List ℚ) (currentX : ℚ) (cur : List ℚ),
      legendRowsAux W ws currentX cur
        = (cur ++ (rowsSplit W ws currentX).1) :: (rowsSplit W ws currentX).2 := by
  intro ws
  induction ws with
  | nil => intro currentX cur; simp [legendRowsAux, rowsSplit]
  | cons w ws ih =>
    intro currentX cur
    simp only [legendRowsAux, rowsSplit]
    by_cases h : currentX + w ≥ W
    · rw [if_pos h, if_pos h, ih (w + legendPaddingX) [w]]
      simp
    · rw [if_neg h, if_neg h, ih (currentX + w + legendPaddingX) (cur ++ [w])]
      simp

theorem legendRows_eq_split (W : ℚ) (bws : List ℚ) :
    legendRows W bws = (rowsSplit W bws 0).1 :: (rowsSplit W bws 0).2 := by
  rw [legendRows, legendRowsAux_eq_split]
  simp

theorem legendAdjustAux_eq_rowsCoords (W : ℚ) :
    ∀ (ws : List ℚ) (currentX currentY : ℚ),
      legendAdjustAux W ws currentX currentY
        = (rowXs currentX (rowsSplit W ws currentX).1).map (fun x => (x, currentY))
          ++ rowsCoords (rowsSplit W ws currentX).2 0 (currentY + legendPaddingY) := by
  intro ws
  induction ws with
  | nil => intro currentX currentY; simp [legendAdjustAux, rowsSplit, rowXs, rowsCoords]
  | cons w ws ih =>
    intro currentX currentY
    simp only [legendAdjustAux, rowsSplit]
    by_cases h : currentX + w ≥ W
    · rw [if_pos h, if_pos h, ih (w + legendPaddingX) (currentY + legendPaddingY)]
      simp only [rowXs, rowsCoords, List.map_cons, List.nil_append, List.map_nil]
      rw [zero_add]
      simp [List.cons_append]
    · rw [if_neg h, if_neg h, ih (currentX + w + legendPaddingX) currentY]
      simp [rowXs]

/-- The coordinates `fixUpLegend` pushes are exactly the coordinates
generated by the rows `legendRows` computes: the two recordings of the
greedy loop agree. -/
theorem fixUpLegendAdjustments_eq_rowsCoords (W : ℚ) (bws : List ℚ) :
    fixUpLegendAdjustments W bws = rowsCoords (legendRows W bws) 0 legendPaddingY := by
  rw [fixUpLegendAdjustments, legendAdjustAux_eq_rowsCoords, legendRows_eq_split]
  simp [rowsCoords]

theorem rowWidth_append_singleton (cur : List ℚ) (w : ℚ) :
    rowWidth (cur ++ [w]) = cur.sum + legendPaddingX * cur.length + w := by
  match cur with
  | [] => simp [rowWidth]
  | c :: cs =>
    simp only [rowWidth, List.sum_append, List.length_append]
    push_cast
    ring_nf
    simp [List.sum_cons]
    ring

theorem legendRowsAux_rowWidth (W : ℚ) :
    ∀ (ws cur : List ℚ) (currentX : ℚ),
      currentX = cur.sum + legendPaddingX * cur.length →
      (cur ≠ [] → rowWidth cur < W) →
      (∀ w ∈ ws, w < W) →
      ∀ row ∈ legendRowsAux W ws currentX cur, row ≠ [] → rowWidth row < W := by
  intro ws
  induction ws with
  | nil =>
    intro cur currentX _ hcur _ row hrow
    simp only [legendRowsAux, List.mem_singleton] at hrow
    subst hrow
    exact hcur
  | cons w ws ih =>
    intro cur currentX hx hcur hws row hrow
    simp only [legendRowsAux] at hrow
    by_cases h : currentX + w ≥ W
    · rw [if_pos h] at hrow
      rcases List.mem_cons.mp hrow with hr | hr
      · intro hne
        rw [hr] at hne ⊢
        exact hcur hne
      · refine ih [w] (w + legendPaddingX) (by simp) ?_ (fun v hv => hws v (by simp [hv])) row hr
        intro _
        have : rowWidth [w] = w := by simp [rowWidth]
        rw [this]
        exact hws w (by simp)
    · rw [if_neg h] at hrow
      have hlt : currentX + w < W := lt_of_not_le h
      refine ih (cur ++ [w]) (currentX + w + legendPaddingX) ?_ ?_
        (fun v hv => hws v (by simp [hv])) row hrow
      · rw [List.sum_append, List.length_append]
        push_cast
        simp [List.sum_cons]
        linarith [hx]
      · intro _
        rw [rowWidth_append_singleton]
        rw [← hx]
        exact hlt

/-- Row-width bound for the amended C4: if every key is narrower than the
legend, every non-empty row fits strictly inside the legend width. -/
theorem legendRows_rowWidth (W : ℚ) (bws : List ℚ)
    (h : ∀ w ∈ bws, w < W) :
    ∀ row ∈ legendRows W bws, row ≠ [] → rowWidth row < W := by
  apply legendRowsAux_rowWidth W bws [] 0 (by simp) (by simp) h

/-- Per-key bound: every key's right edge stays strictly inside the legend
width as soon as every key is narrower than the legend. -/
theorem legendAdjustAux_right_edge (W : ℚ) :
    ∀ (ws : List ℚ) (currentX currentY : ℚ),
      (∀ w ∈ ws, w < W) →
      ∀ p ∈ ws.zip (legendAdjustAux W ws currentX currentY), p.2.1 + p.1 < W := by
  intro ws
  induction ws with
  | nil => intro currentX currentY _ p hp; simp [legendAdjustAux] at hp
  | cons w ws ih =>
    intro currentX currentY hws p hp
    simp only [legendAdjustAux] at hp
    by_cases h : currentX + w ≥ W
    · rw [if_pos h] at hp
      rcases List.mem_cons.mp (by simpa [List.zip_cons_cons] using hp) with hp1 | hp1
      · rw [hp1]
        simpa using hws w (by simp)
      · exact ih _ _ (fun v hv => hws v (by simp [hv])) p hp1
    · rw [if_neg h] at hp
      rcases List.mem_cons.mp (by simpa [List.zip_cons_cons] using hp) with hp1 | hp1
      · rw [hp1]
        simpa [add_comm] using lt_of_not_le h
      · exact ih _ _ (fun v hv => hws v (by simp [hv])) p hp1

/-!  ## Supporting lemmas: min, max, and the computed props  -/

theorem qmax?_eq_some_iff {l : List ℚ} {a : ℚ} :
    l.max? = some a ↔ a ∈ l ∧ ∀ b ∈ l, b ≤ a := by
  have anti : Std.Antisymm ((· : ℚ) ≤ ·) := ⟨fun h1 h2 => le_antisymm h1 h2⟩
  exact List.max?_eq_some_iff (fun a => le_refl a) (fun a b => max_choice a b)
    (fun a b c => max_le_iff)

theorem qmin?_eq_some_iff {l : List ℚ} {a : ℚ} :
    l.min? = some a ↔ a ∈ l ∧ ∀ b ∈ l, a ≤ b := by
  have anti : Std.Antisymm ((· : ℚ) ≤ ·) := ⟨fun h1 h2 => le_antisymm h1 h2⟩
  exact List.min?_eq_some_iff (fun a => le_refl a) (fun a b => min_choice a b)
    (fun a b c => le_min_iff)

theorem nmax?_eq_some_iff {l : List ℕ} {a : ℕ} :
    l.max? = some a ↔ a ∈ l ∧ ∀ b ∈ l, b ≤ a := by
  have anti : Std.Antisymm ((· : ℕ) ≤ ·) := ⟨fun h1 h2 => Nat.le_antisymm h1 h2⟩
  exact List.max?_eq_some_iff (fun a => le_refl a) (fun a b => max_choice a b)
    (fun a b c => max_le_iff)

theorem min?_eq_of_perm {l1 l2 : List ℚ} (h : l1.Perm l2) : l1.min? = l2.min? := by
  cases h2 : l2.min? with
  | none =>
    rw [List.min?_eq_none_iff] at h2 ⊢
    subst h2
    exact h.eq_nil
  | some a =>
    rw [qmin?_eq_some_iff] at h2 ⊢
    obtain ⟨hmem, hle⟩ := h2
    exact ⟨h.mem_iff.mpr hmem, fun b hb => hle b (h.mem_iff.mp hb)⟩

theorem max?_eq_of_perm {l1 l2 : List ℚ} (h : l1.Perm l2) : l1.max? = l2.max? := by
  cases h2 : l2.max? with
  | none =>
    rw [List.max?_eq_none_iff] at h2 ⊢
    subst h2
    exact h.eq_nil
  | some a =>
    rw [qmax?_eq_some_iff] at h2 ⊢
    obtain ⟨hmem, hle⟩ := h2
    exact ⟨h.mem_iff.mpr hmem, fun b hb => hle b (h.mem_iff.mp hb)⟩

theorem seriesYs_sortData_perm (data : List Series) (sortBy : Point → JVal) :
    (seriesYs (sortData data sortBy)).Perm (seriesYs data) :=
  (sortData_perm data sortBy).flatMap_right _

theorem sortData_length (data : List Series) (sortBy : Point → JVal) :
    (sortData data sortBy).length = data.length :=
  (sortData_perm data sortBy).length_eq

theorem range_max? {n : ℕ} (hn : n ≠ 0) : (List.range n).max? = some (n - 1) := by
  rw [nmax?_eq_some_iff]
  constructor
  · rw [List.mem_range]
    omega
  · intro b hb
    rw [List.mem_range] at hb
    omega

theorem computeTickInterval_range {n : ℕ} (hn : n ≠ 0) :
    computeTickInterval (List.range n)
      = some ((10 : ℚ) ^ ((Nat.repr (n - 1)).length - 1) / 2) := by
  rw [computeTickInterval, range_max? hn]

theorem computeTickInterval_isSome_iff (l : List ℕ) :
    (computeTickInterval l).isSome ↔ l ≠ [] := by
  rw [computeTickInterval]
  cases h : l.max? with
  | none =>
    rw [List.max?_eq_none_iff] at h
    simp [h]
  | some m =>
    have : l ≠ [] := by
      intro hl
      rw [hl] at h
      simp at h
    simp [this]

theorem computedProps_spec {data : List Series} {width height : ℚ} {cp : ComputedProps}
    (h : computedProps data width height = some cp) :
    cp.sortedData = sortData data (fun p => p.color) ∧
    cp.plotWidth = width - (20 + 60) ∧
    cp.legendWidth = width - (20 + 60) ∧
    cp.plotHeight = height - (20 + 60 + height * (7 / 100) + height * (3 / 100)) ∧
    cp.yDomain = (match (seriesYs (sortData data (fun p => p.color))).min?,
        (seriesYs (sortData data (fun p => p.color))).max? with
      | some a, some b => some (a, b)
      | _, _ => none) ∧
    computeTickInterval (List.range (sortData data (fun p => p.color)).length)
      = some cp.interval ∧
    cp.xTicks = (List.range (sortData data (fun p => p.color)).length).filter
      (fun (d : ℕ) => decide (jsMod (d : ℚ) cp.interval = 0)) ∧
    cp.colorValues = d3SetValues (((sortData data (fun p => p.color)).map
      (fun d => d.values.map (fun v => v.color))).flatten.map toKeyString) ∧
    cp.shapeValues = d3SetValues (((sortData data (fun p => p.color)).map
      (fun d => d.values.map (fun v => v.shape))).flatten.map toKeyString) := by
  simp only [computedProps] at h
  rcases htick : computeTickInterval
      (List.range (sortData data (fun p => p.color)).length) with _ | i
  · rw [htick] at h
    simp at h
  · rw [htick] at h
    simp only [Option.some.injEq] at h
    subst h
    refine ⟨rfl, rfl, rfl, rfl, rfl, rfl, rfl, rfl, rfl⟩

theorem computedProps_isSome_iff (data : List Series) (width height : ℚ) :
    (computedProps data width height).isSome ↔ data ≠ [] := by
  simp only [computedProps]
  rcases htick : computeTickInterval
      (List.range (sortData data (fun p => p.color)).length) with _ | i
  · have h2 := (computeTickInterval_isSome_iff
      (List.range (sortData data (fun p => p.color)).length))
    rw [htick] at h2
    simp only [Option.isSome_none, Bool.false_eq_true, false_iff, ne_eq, not_not] at h2
    have h3 : data = [] := by
      have := List.range_eq_nil.mp h2
      rw [sortData_length] at this
      exact List.eq_nil_of_length_eq_zero this
    simp [htick, h3]
  · have h2 := (computeTickInterval_isSome_iff
      (List.range (sortData data (fun p => p.color)).length))
    rw [htick] at h2
    simp only [Option.isSome_some, true_iff, ne_eq] at h2
    have h3 : data ≠ [] := by
      intro hd
      apply h2
      rw [List.range_eq_nil, sortData_length, hd]
      rfl
    simp [htick, h3]

theorem scatCatViz_spec {data : List Series} {yLines : Option (List ℚ)}
    {width height : ℚ} {out : RenderOutput}
    (h : scatCatViz data yLines width height = some out) :
    ∃ cp, computedProps data width height = some cp ∧
      out.bands = cp.sortedData.enum.map (fun p => BandMark.mk (cp.xPos p.1)) ∧
      out.points = cp.sortedData.flatMap (fun d => d.values.map (fun v =>
        PointMark.mk (ordinalScale cp.shapeValues symbolTypes (toKeyString v.shape))
          (cp.yScaleAt v.y))) ∧
      out.lines = renderYLines yLines cp.plotWidth cp.yScaleAt ∧
      out.legendColorKeys = cp.colorValues ∧
      out.legendShapeKeys = cp.shapeValues ∧
      out.dataAfter = cp.sortedData := by
  rw [scatCatViz] at h
  rcases hcp : computedProps data width height with _ | cp
  · rw [hcp] at h
    simp at h
  · rw [hcp] at h
    simp only [Option.some.injEq] at h
    subst h
    exact ⟨cp, rfl, rfl, rfl, rfl, rfl, rfl, rfl⟩

/-!  ## Claims  -/

/-- C1: for every dataset on which the render call completes, `scatCatViz`
appends one `.band` group per `Series` and one symbol path per element of
each `Series`' `values` array, so the number of rendered point marks
equals the total number of `Point`s summed across all `Series`. -/
theorem claim_C1 (data : List Series) (yLines : Option (List ℚ)) (width height : ℚ)
    (out : RenderOutput) (h : scatCatViz data yLines width height = some out) :
    out.bands.length = data.length ∧
    out.points.length = (data.map (fun d => d.values.length)).sum := by
  obtain ⟨cp, hcp, hbands, hpoints, -, -, -, -⟩ := scatCatViz_spec h
  obtain ⟨hsd, -⟩ := computedProps_spec hcp
  constructor
  · rw [hbands, List.length_map, List.enum_length, hsd, sortData_length]
  · rw [hpoints, List.flatMap_def, List.length_flatten, List.map_map]
    have hmaplen : ∀ d : Series, (List.length ∘ fun d : Series =>
        d.values.map (fun v => PointMark.mk
          (ordinalScale cp.shapeValues symbolTypes (toKeyString v.shape))
          (cp.yScaleAt v.y))) d = d.values.length := by
      intro d
      simp
    rw [List.map_congr_left (fun d _ => hmaplen d)]
    rw [hsd]
    exact ((sortData_perm data (fun p => p.color)).map (fun d => d.values.length)).sum_eq

theorem sortData_demo :
    sortData demoData (fun p => p.color) =
      [ { key := "c", values := [] },
        { key := "b", values := [demoPoint 1 (.jnum 2)] },
        { key := "a", values := [demoPoint 5 (.jnum 5)] } ] := by
  norm_num [sortData, jsStableSort, jsInsert, sortLE, sortCompare, seriesSortKey,
    pickFirst, toNumber, demoData, demoPoint]

theorem demoViz_isSome : (scatCatViz demoData none 400 300).isSome := by
  rw [scatCatViz]
  have h := (computedProps_isSome_iff demoData 400 300).mpr (by simp [demoData])
  rcases hcp : computedProps demoData 400 300 with _ | cp
  · rw [hcp] at h
    simp at h
  · simp

theorem claim_C1_witness :
    ((scatCatViz demoData none 400 300).get demoViz_isSome).bands.length = demoData.length ∧
    ((scatCatViz demoData none 400 300).get demoViz_isSome).points.length
      = (demoData.map (fun d => d.values.length)).sum :=
  claim_C1 demoData none 400 300 ((scatCatViz demoData none 400 300).get demoViz_isSome)
    (Option.some_get demoViz_isSome).symm

/-- C5 (amended): a render call runs to completion for every dataset with
at least one `Series`; the original claim fails on the empty series list,
where `computeTickInterval` throws (see the counterexample). -/
theorem claim_C5 (data : List Series) (yLines : Option (List ℚ)) (width height : ℚ)
    (hne : data ≠ []) : (scatCatViz data yLines width height).isSome := by
  rw [scatCatViz]
  have h := (computedProps_isSome_iff data width height).mpr hne
  rcases hcp : computedProps data width height with _ | cp
  · rw [hcp] at h
    simp at h
  · simp

/-- C5 counterexample: rendering the empty series list does not run to
completion — `computeTickInterval` receives an empty domain, `d3.max`
returns `undefined`, and `undefined.toString()` throws a `TypeError`
(modelled by `none`). -/
theorem claim_C5_counterexample : scatCatViz [] none 400 300 = none := by decide

theorem claim_C5_witness :
    demoData ≠ [] ∧ (scatCatViz demoData none 400 300).isSome :=
  ⟨by simp [demoData], claim_C5 demoData none 400 300 (by simp [demoData])⟩

/-- C9: `sortData` sorts the caller's array in place and returns that same
array, so after every completed render the supplied `json.data.data` holds
the series reordered by the first-point color comparison; on the sample
dataset the reordering is a proper change. -/
theorem claim_C9 :
    (∀ (data : List Series) (yLines : Option (List ℚ)) (width height : ℚ)
        (out : RenderOutput),
      scatCatViz data yLines width height = some out →
      out.dataAfter = sortData data (fun p => p.color)) ∧
    sortData demoData (fun p => p.color) ≠ demoData := by
  constructor
  · intro data yLines width height out hout
    obtain ⟨cp, hcp, -, -, -, -, -, hafter⟩ := scatCatViz_spec hout
    obtain ⟨hsd, -⟩ := computedProps_spec hcp
    rw [hafter, hsd]
  · rw [sortData_demo]
    simp [demoData]

theorem claim_C9_witness :
    ((scatCatViz demoData none 400 300).get demoViz_isSome).dataAfter
      = sortData demoData (fun p => p.color) :=
  claim_C9.1 demoData none 400 300 ((scatCatViz demoData none 400 300).get demoViz_isSome)
    (Option.some_get demoViz_isSome).symm

/-- C4 counterexample: with legend width 10 and a single key of measured
width 20, the wrap check moves the key to a fresh row without re-checking
its own width, and that row's total occupied width (20) exceeds the legend
width — so the claim fails for arbitrary width sequences. -/
theorem claim_C4_counterexample :
    [(20 : ℚ)] ∈ legendRows 10 [20] ∧ (10 : ℚ) < rowWidth [20] := by
  constructor
  · have h : legendRows 10 [20] = [[], [(20 : ℚ)]] := by
      norm_num [legendRows, legendRowsAux, legendPaddingX]
    rw [h]
    simp
  · norm_num [rowWidth]

/-- C4 (amended): provided every key's measured bounding-box width is
strictly less than the configured legend width, the greedy row-wrapping
pass of `fixUpLegend` places the keys so that every non-empty row's total
occupied width (key widths plus the fixed inter-key gaps between them)
stays strictly below the legend width; equivalently, every key's right
edge stays strictly inside the legend width. -/
theorem claim_C4 (legendWidth : ℚ) (bboxWidths : List ℚ)
    (h : ∀ w ∈ bboxWidths, w < legendWidth) :
    (∀ row ∈ legendRows legendWidth bboxWidths, row ≠ [] → rowWidth row < legendWidth) ∧
    (∀ p ∈ bboxWidths.zip (fixUpLegendAdjustments legendWidth bboxWidths),
      p.2.1 + p.1 < legendWidth) :=
  ⟨legendRows_rowWidth legendWidth bboxWidths h,
   legendAdjustAux_right_edge legendWidth bboxWidths 0 legendPaddingY h⟩

theorem claim_C4_witness :
    rowWidth [(30 : ℚ), 40] < 100 ∧ rowWidth [(50 : ℚ), 20] < 100 ∧
    rowWidth [(90 : ℚ)] < 100 := by
  have h := claim_C4 100 [30, 40, 50, 20, 90] (by norm_num)
  have hrows : legendRows 100 [(30 : ℚ), 40, 50, 20, 90]
      = [[30, 40], [50, 20], [90]] := by
    norm_num [legendRows, legendRowsAux, legendPaddingX]
  rw [hrows] at h
  exact ⟨h.1 [30, 40] (by simp) (by simp),
         h.1 [50, 20] (by simp) (by simp),
         h.1 [90] (by simp) (by simp)⟩


/-- C2: for every dataset whose series all carry numeric sort keys (their
first point's color coerces to a number; null in an empty series coerces
to 0) and a positive plot width, `sortData` orders the series by that key
with ties keeping the original relative order (stable, a permutation),
and the horizontal `rangePoints` position is strictly increasing in the
rank of each series in the sorted order. -/
theorem claim_C2 (data : List Series) (plotWidth : ℚ)
    (hnum : ∀ s ∈ data, (seriesSortKey (fun p => p.color) s).isSome)
    (hpw : 0 < plotWidth) :
    ((sortData data (fun p => p.color)).Pairwise (fun a b => numKeyD a ≤ numKeyD b)) ∧
    ((sortData data (fun p => p.color)).Perm data) ∧
    (∀ q : ℚ, (sortData data (fun p => p.color)).filter (fun s => decide (numKeyD s = q))
        = data.filter (fun s => decide (numKeyD s = q))) ∧
    (∀ i j : ℕ, i < j → j < (sortData data (fun p => p.color)).length →
      rangePoints 0 plotWidth (sortData data (fun p => p.color)).length i
        < rangePoints 0 plotWidth (sortData data (fun p => p.color)).length j) := by
  have hle : ∀ a ∈ data, ∀ b ∈ data,
      (sortLE (fun p => p.color) a b = true ↔ numKeyD a ≤ numKeyD b) := by
    intro a ha b hb
    have hka := hnum a ha
    have hkb := hnum b hb
    rcases hA : seriesSortKey (fun p => p.color) a with _ | x
    · rw [hA] at hka
      simp at hka
    rcases hB : seriesSortKey (fun p => p.color) b with _ | y
    · rw [hB] at hkb
      simp at hkb
    simp only [sortLE, sortCompare, hA, hB, numKeyD, Option.getD_some,
      decide_eq_true_eq]
    exact sub_nonpos
  refine ⟨jsStableSort_pairwise hle, sortData_perm data _,
    fun q => jsStableSort_filter q hle, ?_⟩
  intro i j hij hj
  exact rangePoints_strict_mono hpw hij hj

theorem claim_C2_witness :
    ((sortData demoData (fun p => p.color)).Pairwise (fun a b => numKeyD a ≤ numKeyD b)) ∧
    ((sortData demoData (fun p => p.color)).Perm demoData) ∧
    ((sortData demoData (fun p => p.color)).filter (fun s => decide (numKeyD s = 2))
        = demoData.filter (fun s => decide (numKeyD s = 2))) ∧
    rangePoints 0 320 (sortData demoData (fun p => p.color)).length 0
      < rangePoints 0 320 (sortData demoData (fun p => p.color)).length 1 := by
  have hnum : ∀ s ∈ demoData, (seriesSortKey (fun p => p.color) s).isSome := by
    intro s hs
    simp only [demoData, List.mem_cons, List.not_mem_nil, or_false] at hs
    rcases hs with rfl | rfl | rfl <;>
      simp [seriesSortKey, pickFirst, toNumber, demoPoint]
  have h := claim_C2 demoData 320 hnum (by norm_num)
  refine ⟨h.1, h.2.1, h.2.2.1 2, h.2.2.2 0 1 (by norm_num) ?_⟩
  rw [sortData_length]
  simp [demoData]

/-- C10: a series with an empty `values` list has a defined, deterministic
sort key: `pickFirst` returns the default `null`, `+null` is `0`, so it
compares exactly as a series whose first point's color coerces to `0`. -/
theorem claim_C10 (s : Series) (hs : s.values = []) :
    seriesSortKey (fun p => p.color) s = some 0 ∧
    (∀ (t : Series) (p : Point) (l : List Point), toNumber p.color = some 0 →
      sortCompare (fun p => p.color) s t
        = sortCompare (fun p => p.color) { key := s.key, values := p :: l } t ∧
      sortCompare (fun p => p.color) t s
        = sortCompare (fun p => p.color) t { key := s.key, values := p :: l }) := by
  have hk : seriesSortKey (fun p => p.color) s = some 0 := by
    rw [seriesSortKey, hs]
    rfl
  refine ⟨hk, fun t p l hp => ?_⟩
  have hk2 : seriesSortKey (fun p => p.color) { key := s.key, values := p :: l }
      = some 0 := by
    rw [seriesSortKey]
    simpa [pickFirst] using hp
  constructor
  · simp only [sortCompare, hk, hk2]
  · simp only [sortCompare, hk, hk2]

theorem claim_C10_witness :
    seriesSortKey (fun p => p.color) { key := "c", values := [] } = some 0 ∧
    sortCompare (fun p => p.color) { key := "c", values := [] }
        { key := "b", values := [demoPoint 1 (.jnum 2)] }
      = sortCompare (fun p => p.color) { key := "c", values := [demoPoint 1 (.jnum 0)] }
        { key := "b", values := [demoPoint 1 (.jnum 2)] } := by
  have h := claim_C10 { key := "c", values := [] } rfl
  exact ⟨h.1, (h.2 { key := "b", values := [demoPoint 1 (.jnum 2)] }
    (demoPoint 1 (.jnum 0)) [] (by simp [demoPoint, toNumber])).1⟩

/-- C3: for every non-empty list of indices the computed tick interval is
`10 ^ (d - 1) / 2` with `d` the decimal digit count of the maximum
(`toString().length`, equal to `log₁₀ + 1`), and the retained ticks are
exactly the domain values evenly divisible by that interval; when the
maximum has a single digit the interval is `0.5` and every index
survives. -/
theorem claim_C3 (domain : List ℕ) (hne : domain ≠ []) :
    ∃ m : ℕ, domain.max? = some m ∧
      computeTickInterval domain = some ((10 : ℚ) ^ ((Nat.repr m).length - 1) / 2) ∧
      (Nat.repr m).length = Nat.log 10 m + 1 ∧
      (∀ d : ℕ,
        d ∈ domain.filter (fun (d : ℕ) => decide (jsMod (d : ℚ)
            ((10 : ℚ) ^ ((Nat.repr m).length - 1) / 2) = 0)) ↔
          d ∈ domain ∧ ∃ k : ℤ, (d : ℚ) = k * ((10 : ℚ) ^ ((Nat.repr m).length - 1) / 2)) ∧
      (m < 10 →
        computeTickInterval domain = some (1 / 2) ∧
        domain.filter (fun (d : ℕ) => decide (jsMod (d : ℚ)
          ((10 : ℚ) ^ ((Nat.repr m).length - 1) / 2) = 0)) = domain) := by
  cases hmax : domain.max? with
  | none => exact absurd (List.max?_eq_none_iff.mp hmax) hne
  | some m =>
    have hpos : (0 : ℚ) < (10 : ℚ) ^ ((Nat.repr m).length - 1) / 2 := by positivity
    have hnz : ((10 : ℚ) ^ ((Nat.repr m).length - 1) / 2) ≠ 0 := ne_of_gt hpos
    refine ⟨m, rfl, ?_, repr_length_eq_log m, ?_, ?_⟩
    · simp only [computeTickInterval, hmax]
    · intro d
      rw [List.mem_filter]
      constructor
      · rintro ⟨hd, hmod⟩
        rw [decide_eq_true_eq] at hmod
        exact ⟨hd, (jsMod_eq_zero_iff hnz).mp hmod⟩
      · rintro ⟨hd, hk⟩
        refine ⟨hd, ?_⟩
        rw [decide_eq_true_eq]
        exact (jsMod_eq_zero_iff hnz).mpr hk
    · intro hm
      have hlen : (Nat.repr m).length = 1 := by
        rw [repr_length_eq_log]
        have h0 : Nat.log 10 m = 0 := Nat.log_eq_zero_iff.mpr (Or.inl hm)
        omega
      constructor
      · simp only [computeTickInterval, hmax, hlen]
        norm_num
      · apply List.filter_eq_self.mpr
        intro d hd
        rw [decide_eq_true_eq]
        apply (jsMod_eq_zero_iff hnz).mpr
        refine ⟨2 * d, ?_⟩
        rw [hlen]
        push_cast
        ring

theorem claim_C3_witness :
    (List.range 12).max? = some 11 ∧
    computeTickInterval (List.range 12) = some 5 := by
  obtain ⟨m, hm, hint, -, -, -⟩ := claim_C3 (List.range 12) (by simp)
  have h11 : (List.range 12).max? = some 11 := range_max? (by norm_num)
  have hm11 : m = 11 := by
    rw [h11] at hm
    exact (Option.some.inj hm).symm
  subst hm11
  refine ⟨h11, ?_⟩
  rw [hint]
  norm_num [show (Nat.repr 11).length = 2 from rfl]

/-- C6: for a dataset whose `y` values are not all equal (the global
minimum and maximum differ), the vertical scale's domain is exactly
`[global min, global max]` and its range `[plotHeight, 0]`, so it maps the
minimum to `plotHeight` and the maximum to `0`. -/
theorem claim_C6 (data : List Series) (width height : ℚ) (cp : ComputedProps)
    (hcp : computedProps data width height = some cp) (a b : ℚ)
    (hmin : (seriesYs data).min? = some a)
    (hmax : (seriesYs data).max? = some b)
    (hne : a ≠ b) :
    cp.yDomain = some (a, b) ∧
    cp.yScaleAt a = some cp.plotHeight ∧
    cp.yScaleAt b = some 0 := by
  obtain ⟨hsd, hpw, hlw, hph, hyd, -⟩ := computedProps_spec hcp
  have hmin2 : (seriesYs (sortData data (fun p => p.color))).min? = some a := by
    rw [min?_eq_of_perm (seriesYs_sortData_perm data _)]
    exact hmin
  have hmax2 : (seriesYs (sortData data (fun p => p.color))).max? = some b := by
    rw [max?_eq_of_perm (seriesYs_sortData_perm data _)]
    exact hmax
  have hdom : cp.yDomain = some (a, b) := by
    rw [hyd, hmin2, hmax2]
  have hba : b - a ≠ 0 := sub_ne_zero.mpr (Ne.symm hne)
  refine ⟨hdom, ?_, ?_⟩
  · rw [ComputedProps.yScaleAt, hdom, jsLinearScale, linearScale, if_neg hba]
    congr 1
    field_simp
  · rw [ComputedProps.yScaleAt, hdom, jsLinearScale, linearScale, if_neg hba]
    congr 1
    field_simp

theorem demoProps_isSome : (computedProps demoData 400 300).isSome :=
  (computedProps_isSome_iff demoData 400 300).mpr (by simp [demoData])

theorem demoYs_min : (seriesYs demoData).min? = some 1 := by
  norm_num [seriesYs, demoData, demoPoint, List.min?]

theorem demoYs_max : (seriesYs demoData).max? = some 5 := by
  norm_num [seriesYs, demoData, demoPoint, List.max?]

theorem claim_C6_witness :
    ((computedProps demoData 400 300).get demoProps_isSome).yDomain = some (1, 5) ∧
    ((computedProps demoData 400 300).get demoProps_isSome).yScaleAt 1
      = some ((computedProps demoData 400 300).get demoProps_isSome).plotHeight ∧
    ((computedProps demoData 400 300).get demoProps_isSome).yScaleAt 5 = some 0 :=
  claim_C6 demoData 400 300 ((computedProps demoData 400 300).get demoProps_isSome)
    (Option.some_get demoProps_isSome).symm 1 5 demoYs_min demoYs_max (by norm_num)

/-- C7: supplying `yLines = [3]` appends exactly one full-width line at the
vertical scale position of 3 (`x1 = 0`, `x2 = plotWidth`,
`y1 = y2 = yScale(3)`); supplying `[]` (truthy but empty, so the data join
is empty) or omitting `yLines` (falsy) appends none. -/
theorem claim_C7 (data : List Series) (width height : ℚ) (cp : ComputedProps)
    (hcp : computedProps data width height = some cp) :
    (∀ out, scatCatViz data (some [3]) width height = some out →
      out.lines = [{ stroke := "red", strokeWidth := 3 / 2, x1 := 0, x2 := cp.plotWidth,
                     y1 := cp.yScaleAt 3, y2 := cp.yScaleAt 3 }]) ∧
    (∀ out, scatCatViz data (some []) width height = some out → out.lines = []) ∧
    (∀ out, scatCatViz data none width height = some out → out.lines = []) := by
  refine ⟨?_, ?_, ?_⟩ <;> intro out hout <;>
    obtain ⟨cp2, hcp2, -, -, hlines, -⟩ := scatCatViz_spec hout <;>
    rw [hcp] at hcp2 <;>
    cases Option.some.inj hcp2 <;>
    rw [hlines] <;>
    simp [renderYLines, ComputedProps.yScaleAt]

theorem demoViz3_isSome : (scatCatViz demoData (some [3]) 400 300).isSome := by
  rw [scatCatViz]
  have h := (computedProps_isSome_iff demoData 400 300).mpr (by simp [demoData])
  rcases hcp : computedProps demoData 400 300 with _ | cp
  · rw [hcp] at h
    simp at h
  · simp

theorem claim_C7_witness :
    ((scatCatViz demoData (some [3]) 400 300).get demoViz3_isSome).lines
      = [{ stroke := "red", strokeWidth := 3 / 2, x1 := 0,
           x2 := ((computedProps demoData 400 300).get demoProps_isSome).plotWidth,
           y1 := ((computedProps demoData 400 300).get demoProps_isSome).yScaleAt 3,
           y2 := ((computedProps demoData 400 300).get demoProps_isSome).yScaleAt 3 }] :=
  (claim_C7 demoData 400 300 ((computedProps demoData 400 300).get demoProps_isSome)
    (Option.some_get demoProps_isSome).symm).1
    ((scatCatViz demoData (some [3]) 400 300).get demoViz3_isSome)
    (Option.some_get demoViz3_isSome).symm

theorem findIdx?_eq_of_nodup {l : List String} {i : ℕ} {s : String}
    (hnd : l.Nodup) (h : l[i]? = some s) :
    l.findIdx? (fun y => y == s) = some i := by
  induction l generalizing i with
  | nil => simp at h
  | cons x xs ih =>
    rw [List.nodup_cons] at hnd
    obtain ⟨hx, hnd⟩ := hnd
    cases i with
    | zero =>
      rw [List.getElem?_cons_zero] at h
      have hxs : x = s := Option.some.inj h
      subst hxs
      simp [List.findIdx?_cons]
    | succ i =>
      rw [List.getElem?_cons_succ] at h
      have hs : s ∈ xs := List.getElem?_mem h
      have hxns : (x == s) = false := by
        have hne2 : x ≠ s := fun he => hx (he ▸ hs)
        simp [hne2]
      rw [List.findIdx?_cons, hxns]
      simp only [Bool.false_eq_true, if_false]
      rw [List.findIdx?_succ, ih hnd h]
      rfl

theorem ordinalScale_at_index {dom rng : List String} {i : ℕ} {s : String}
    (hnd : dom.Nodup) (h : dom[i]? = some s) :
    ordinalScale dom rng s = rng[i % rng.length]? := by
  rw [ordinalScale, findIdx?_eq_of_nodup hnd h]

theorem d3SetValues_nodup (l : List String) : (d3SetValues l).Nodup := by
  rw [d3SetValues_eq_firstSeenDedup]
  exact nodup_firstSeenDedup l

/-- C8: the legend has exactly one color key per distinct color category
key observed across all points and one shape key per distinct shape
category key; each deduplicated domain is listed in first-seen order along
the scan the code performs (over the already-sorted series array), and the
shape scale assigns the i-th symbol of the fixed symbol list (cyclically)
to the i-th domain value. -/
theorem claim_C8 (data : List Series) (yLines : Option (List ℚ)) (width height : ℚ)
    (out : RenderOutput) (h : scatCatViz data yLines width height = some out) :
    out.legendColorKeys.length
      = ((data.flatMap (fun d => d.values.map (fun v => v.color))).map toKeyString).toFinset.card ∧
    out.legendShapeKeys.length
      = ((data.flatMap (fun d => d.values.map (fun v => v.shape))).map toKeyString).toFinset.card ∧
    out.legendColorKeys = firstSeenDedup
      (((sortData data (fun p => p.color)).flatMap
        (fun d => d.values.map (fun v => v.color))).map toKeyString) ∧
    out.legendShapeKeys = firstSeenDedup
      (((sortData data (fun p => p.color)).flatMap
        (fun d => d.values.map (fun v => v.shape))).map toKeyString) ∧
    (∀ (i : ℕ) (s : String), out.legendShapeKeys[i]? = some s →
      ordinalScale out.legendShapeKeys symbolTypes s
        = symbolTypes[i % symbolTypes.length]?) := by
  obtain ⟨cp, hcp, -, -, -, hck, hsk, -⟩ := scatCatViz_spec h
  obtain ⟨-, -, -, -, -, -, -, hcv, hsv⟩ := computedProps_spec hcp
  have hcv2 : out.legendColorKeys = firstSeenDedup
      (((sortData data (fun p => p.color)).flatMap
        (fun d => d.values.map (fun v => v.color))).map toKeyString) := by
    rw [hck, hcv, d3SetValues_eq_firstSeenDedup, List.flatMap_def]
  have hsv2 : out.legendShapeKeys = firstSeenDedup
      (((sortData data (fun p => p.color)).flatMap
        (fun d => d.values.map (fun v => v.shape))).map toKeyString) := by
    rw [hsk, hsv, d3SetValues_eq_firstSeenDedup, List.flatMap_def]
  have hperm : ∀ f : Series → List JVal,
      (((sortData data (fun p => p.color)).flatMap f).map toKeyString).Perm
        ((data.flatMap f).map toKeyString) :=
    fun f => (((sortData_perm data (fun p => p.color)).flatMap_right f).map toKeyString)
  refine ⟨?_, ?_, hcv2, hsv2, ?_⟩
  · rw [hcv2, length_firstSeenDedup,
      List.toFinset_eq_of_perm _ _ (hperm (fun d => d.values.map (fun v => v.color)))]
  · rw [hsv2, length_firstSeenDedup,
      List.toFinset_eq_of_perm _ _ (hperm (fun d => d.values.map (fun v => v.shape)))]
  · intro i s hi
    have hnd : out.legendShapeKeys.Nodup := by
      rw [hsk, hsv]
      exact d3SetValues_nodup _
    exact ordinalScale_at_index hnd hi

theorem claim_C8_witness :
    ((scatCatViz demoData none 400 300).get demoViz_isSome).legendColorKeys.length
      = ((demoData.flatMap (fun d => d.values.map (fun v => v.color))).map
          toKeyString).toFinset.card ∧
    ((scatCatViz demoData none 400 300).get demoViz_isSome).legendShapeKeys.length
      = ((demoData.flatMap (fun d => d.values.map (fun v => v.shape))).map
          toKeyString).toFinset.card ∧
    ((scatCatViz demoData none 400 300).get demoViz_isSome).legendColorKeys
      = firstSeenDedup (((sortData demoData (fun p => p.color)).flatMap
          (fun d => d.values.map (fun v => v.color))).map toKeyString) := by
  have h := claim_C8 demoData none 400 300
    ((scatCatViz demoData none 400 300).get demoViz_isSome)
    (Option.some_get demoViz_isSome).symm
  exact ⟨h.1, h.2.1, h.2.2.1⟩


end CatScat
